import Mathlib

/-!
Verification of the dbmigrate migration engine (main.go) against its
specification.  The Go source is shallowly embedded: strings are modelled as
`List Char` (Go iterates over runes), pure functions become Lean functions, and
the database backend is an abstract parameter.
-/

namespace DbMigrate

/-- The single-quote character U+0027 (Go rune 39), used by the SQL
statement splitter. -/
def squote : Char := Char.ofNat 39

/-- The backslash character U+005C. -/
def bslash : Char := Char.ofNat 92

/-- Go `unicode.IsSpace`: the whitespace set used by `strings.TrimSpace`
(ASCII `\t \n \v \f \r` and space, plus NEL, NBSP and the Unicode
White_Space code points). -/
def goIsSpace (c : Char) : Bool :=
  let n := c.toNat
  decide ((9 ≤ n ∧ n ≤ 13) ∨ n = 32 ∨ n = 0x85 ∨ n = 0xA0 ∨ n = 0x1680 ∨
    (0x2000 ≤ n ∧ n ≤ 0x200A) ∨ n = 0x2028 ∨ n = 0x2029 ∨ n = 0x202F ∨
    n = 0x205F ∨ n = 0x3000)

/-- Go `strings.TrimSpace`: drop leading and trailing whitespace. -/
def goTrim (s : List Char) : List Char :=
  ((s.dropWhile goIsSpace).reverse.dropWhile goIsSpace).reverse

/-- The four mutually-exclusive mode flags of `splitSQLStatements`
(main.go lines 581-582). -/
structure ScanState where
  inSingleQuote : Bool := false
  inDoubleQuote : Bool := false
  inLineComment : Bool := false
  inBlockComment : Bool := false
deriving DecidableEq, Repr

/-- Result of processing one character of the scan loop of
`splitSQLStatements`: the updated flags, whether this character is a
statement boundary (an unquoted, uncommented semicolon), and whether the
lookahead character was also consumed (the `*/` closing a block comment). -/
structure StepResult where
  state : ScanState
  split : Bool
  twoChars : Bool
deriving DecidableEq, Repr

/-- One iteration of the scan loop of `splitSQLStatements` (main.go lines
585-647).  `prev` is the previously consumed rune (`runes[i-1]`, `none` at
`i = 0`) and `ahead` the lookahead rune (`runes[i+1]`).  The branches appear
in source order; the Go quote-toggling block falls through to the semicolon
test, but a quote character can never satisfy the semicolon test and vice
versa, so the if-chain is equivalent. -/
def scanStep (st : ScanState) (prev : Option Char) (ch : Char) (ahead : Option Char) :
    StepResult :=
  if st.inSingleQuote = false ∧ st.inDoubleQuote = false ∧ st.inBlockComment = false ∧
      ch = '-' ∧ ahead = some '-' then
    ⟨{ st with inLineComment := true }, false, false⟩
  else if st.inLineComment = true ∧ (ch = '\n' ∨ ch = '\r') then
    ⟨{ st with inLineComment := false }, false, false⟩
  else if st.inSingleQuote = false ∧ st.inDoubleQuote = false ∧ st.inLineComment = false ∧
      ch = '/' ∧ ahead = some '*' then
    ⟨{ st with inBlockComment := true }, false, false⟩
  else if st.inBlockComment = true ∧ ch = '*' ∧ ahead = some '/' then
    ⟨{ st with inBlockComment := false }, false, true⟩
  else if st.inLineComment = false ∧ st.inBlockComment = false ∧ ch = squote ∧
      st.inDoubleQuote = false then
    if prev = some bslash then ⟨st, false, false⟩
    else ⟨{ st with inSingleQuote := !st.inSingleQuote }, false, false⟩
  else if st.inLineComment = false ∧ st.inBlockComment = false ∧ ch = '"' ∧
      st.inSingleQuote = false then
    if prev = some bslash then ⟨st, false, false⟩
    else ⟨{ st with inDoubleQuote := !st.inDoubleQuote }, false, false⟩
  else if ch = ';' ∧ st.inSingleQuote = false ∧ st.inDoubleQuote = false ∧
      st.inLineComment = false ∧ st.inBlockComment = false then
    ⟨st, true, false⟩
  else ⟨st, false, false⟩

/-- Emission of one statement (main.go lines 638-643 and 650-653): the
trimmed buffer is prepended when non-blank, otherwise dropped. -/
def emitStmt (cur : List Char) (out : List (List Char)) : List (List Char) :=
  if goTrim cur = [] then out else goTrim cur :: out

/-- The emit/accumulate skeleton of `splitSQLStatements` (main.go lines
578-656): at each boundary the trimmed buffer is emitted when non-blank and
the buffer reset; a block-comment close consumes and writes both `*` and the
lookahead `/`; at end of input the trimmed final buffer is emitted when
non-blank.  The input is matched two characters deep because the loop reads
the lookahead `runes[i+1]`; when only one character remains the lookahead is
absent and a two-character consume is impossible (`scanStep` never sets
`twoChars` for an absent lookahead), so that branch is omitted. -/
def splitRun (st : ScanState) (prev : Option Char) (cur : List Char) :
    List Char → List (List Char)
  | [] => emitStmt cur []
  | [ch] =>
    let r := scanStep st prev ch none
    if r.split then emitStmt cur []
    else emitStmt (cur ++ [ch]) []
  | ch :: next :: rest2 =>
    let r := scanStep st prev ch (some next)
    if r.split then
      emitStmt cur (splitRun r.state (some ch) [] (next :: rest2))
    else if r.twoChars then
      splitRun r.state (some next) (cur ++ [ch, next]) rest2
    else
      splitRun r.state (some ch) (cur ++ [ch]) (next :: rest2)

/-- `splitSQLStatements` (main.go lines 578-656) started in the initial
state with an empty buffer. -/
def splitSQLStatements (sql : List Char) : List (List Char) :=
  splitRun {} none [] sql

/-- The raw segments of the scan: same traversal as `splitRun`, but the
buffers are collected untrimmed and unfiltered.  The splitting semicolons
are exactly the characters not copied into any segment. -/
def scanSegs (st : ScanState) (prev : Option Char) (cur : List Char) :
    List Char → List (List Char)
  | [] => [cur]
  | [ch] =>
    let r := scanStep st prev ch none
    if r.split then [cur, []]
    else [cur ++ [ch]]
  | ch :: next :: rest2 =>
    let r := scanStep st prev ch (some next)
    if r.split then
      cur :: scanSegs r.state (some ch) [] (next :: rest2)
    else if r.twoChars then
      scanSegs r.state (some next) (cur ++ [ch, next]) rest2
    else
      scanSegs r.state (some ch) (cur ++ [ch]) (next :: rest2)

/-- The sequence of scanner states at each iteration of the scan loop
(the state in force when each character is consumed), ending with the
final state. -/
def scanStates (st : ScanState) (prev : Option Char) : List Char → List ScanState
  | [] => [st]
  | [ch] => [st, (scanStep st prev ch none).state]
  | ch :: next :: rest2 =>
    let r := scanStep st prev ch (some next)
    if r.twoChars then st :: scanStates r.state (some next) rest2
    else st :: scanStates r.state (some ch) (next :: rest2)

/-- At most one of the four mode flags is set. -/
def ScanState.exclusive (st : ScanState) : Prop :=
  ([st.inSingleQuote, st.inDoubleQuote, st.inLineComment, st.inBlockComment].count true) ≤ 1

instance (st : ScanState) : Decidable st.exclusive := by
  unfold ScanState.exclusive
  infer_instance

/-- Joining segments back with semicolons (the separators the scanner
consumed). -/
def joinSemi : List (List Char) → List Char
  | [] => []
  | [s] => s
  | s :: t :: rest => s ++ ';' :: joinSemi (t :: rest)

theorem goTrim_nil : goTrim ([] : List Char) = [] := rfl

theorem dropWhile_dropWhile_self (p : Char → Bool) (l : List Char) :
    (l.dropWhile p).dropWhile p = l.dropWhile p := by
  induction l with
  | nil => rfl
  | cons a t ih =>
    by_cases h : p a <;> simp [List.dropWhile_cons, h, ih]

theorem dropWhile_head?_not (p : Char → Bool) (l : List Char) (a : Char)
    (h : (l.dropWhile p).head? = some a) : p a = false := by
  induction l with
  | nil => simp at h
  | cons b t ih =>
    rw [List.dropWhile_cons] at h
    by_cases hb : p b
    · rw [if_pos hb] at h
      exact ih h
    · rw [if_neg hb] at h
      simp at h
      rw [← h]
      simpa using hb

theorem dropWhile_eq_self_of_head? (p : Char → Bool) (l : List Char)
    (h : ∀ a, l.head? = some a → p a = false) : l.dropWhile p = l := by
  cases l with
  | nil => rfl
  | cons a t =>
    rw [List.dropWhile_cons, if_neg]
    simp [h a rfl]

theorem goTrim_idem (s : List Char) : goTrim (goTrim s) = goTrim s := by
  unfold goTrim
  have hstable : ((((s.dropWhile goIsSpace).reverse.dropWhile goIsSpace).reverse).dropWhile
      goIsSpace) = ((s.dropWhile goIsSpace).reverse.dropWhile goIsSpace).reverse := by
    apply dropWhile_eq_self_of_head?
    intro a ha
    rw [List.head?_reverse] at ha
    have hu : (s.dropWhile goIsSpace).reverse.dropWhile goIsSpace ≠ [] := by
      intro hnil
      rw [hnil] at ha
      simp at ha
    have hsplit := List.takeWhile_append_dropWhile goIsSpace (s.dropWhile goIsSpace).reverse
    have hlast : ((s.dropWhile goIsSpace).reverse).getLast? = some a := by
      rw [← hsplit, List.getLast?_append_of_ne_nil _ hu]
      exact ha
    rw [List.getLast?_reverse] at hlast
    exact dropWhile_head?_not goIsSpace _ a hlast
  rw [hstable, List.reverse_reverse, dropWhile_dropWhile_self]

theorem scanSegs_ne_nil (st : ScanState) (prev : Option Char) (cur : List Char)
    (l : List Char) : scanSegs st prev cur l ≠ [] := by
  induction st, prev, cur, l using scanSegs.induct with
  | case1 st prev cur => simp [scanSegs]
  | case2 st prev cur ch r hsplit =>
    have hs : (scanStep st prev ch none).split = true := hsplit
    simp [scanSegs, hs]
  | case3 st prev cur ch r hsplit =>
    have hs : ¬(scanStep st prev ch none).split = true := hsplit
    simp [scanSegs, hs]
  | case4 st prev cur ch next rest2 r hsplit ih =>
    have hs : (scanStep st prev ch (some next)).split = true := hsplit
    simp [scanSegs, hs]
  | case5 st prev cur ch next rest2 r hsplit htwo ih =>
    have hs : ¬(scanStep st prev ch (some next)).split = true := hsplit
    have ht : (scanStep st prev ch (some next)).twoChars = true := htwo
    simpa [scanSegs, hs, ht] using ih
  | case6 st prev cur ch next rest2 r hsplit htwo ih =>
    have hs : ¬(scanStep st prev ch (some next)).split = true := hsplit
    have ht : ¬(scanStep st prev ch (some next)).twoChars = true := htwo
    simpa [scanSegs, hs, ht] using ih

theorem joinSemi_cons (s : List Char) (S : List (List Char)) (h : S ≠ []) :
    joinSemi (s :: S) = s ++ ';' :: joinSemi S := by
  cases S with
  | nil => exact absurd rfl h
  | cons t rest => rfl

theorem scanStep_split_semi (st : ScanState) (prev : Option Char) (ch : Char)
    (ahead : Option Char) (h : (scanStep st prev ch ahead).split = true) : ch = ';' := by
  unfold scanStep at h
  split_ifs at h
  simp_all

theorem scanStep_twoChars_spec (st : ScanState) (prev : Option Char) (ch : Char)
    (ahead : Option Char) (h : (scanStep st prev ch ahead).twoChars = true) :
    ch = '*' ∧ ahead = some '/' := by
  unfold scanStep at h
  split_ifs at h
  simp_all

theorem joinSemi_scanSegs (st : ScanState) (prev : Option Char) (cur : List Char)
    (l : List Char) : joinSemi (scanSegs st prev cur l) = cur ++ l := by
  induction st, prev, cur, l using scanSegs.induct with
  | case1 st prev cur => simp [scanSegs, joinSemi]
  | case2 st prev cur ch r hsplit =>
    have hs : (scanStep st prev ch none).split = true := hsplit
    simp only [scanSegs, hs, if_true]
    rw [joinSemi_cons cur [[]] (by simp), scanStep_split_semi st prev ch none hs]
    simp [joinSemi]
  | case3 st prev cur ch r hsplit =>
    have hs : ¬(scanStep st prev ch none).split = true := hsplit
    simp [scanSegs, hs, joinSemi]
  | case4 st prev cur ch next rest2 r hsplit ih =>
    have hs : (scanStep st prev ch (some next)).split = true := hsplit
    have ih' : joinSemi (scanSegs (scanStep st prev ch (some next)).state (some ch) []
        (next :: rest2)) = [] ++ (next :: rest2) := ih
    simp only [scanSegs, hs, if_true]
    rw [joinSemi_cons cur _ (scanSegs_ne_nil _ _ _ _), ih',
      scanStep_split_semi st prev ch (some next) hs]
    simp
  | case5 st prev cur ch next rest2 r hsplit htwo ih =>
    have hs : ¬(scanStep st prev ch (some next)).split = true := hsplit
    have ht : (scanStep st prev ch (some next)).twoChars = true := htwo
    have ih' : joinSemi (scanSegs (scanStep st prev ch (some next)).state (some next)
        (cur ++ [ch, next]) rest2) = cur ++ [ch, next] ++ rest2 := ih
    simp only [scanSegs, hs, ht, if_true, Bool.false_eq_true, if_false]
    rw [ih']
    simp
  | case6 st prev cur ch next rest2 r hsplit htwo ih =>
    have hs : ¬(scanStep st prev ch (some next)).split = true := hsplit
    have ht : ¬(scanStep st prev ch (some next)).twoChars = true := htwo
    have ih' : joinSemi (scanSegs (scanStep st prev ch (some next)).state (some ch)
        (cur ++ [ch]) (next :: rest2)) = cur ++ [ch] ++ (next :: rest2) := ih
    simp only [scanSegs, hs, ht, Bool.false_eq_true, if_false]
    rw [ih']
    simp

theorem filter_nonblank_cons (x : List Char) (xs : List (List Char)) :
    (x :: xs).filter (fun s => !s.isEmpty) =
      if x = [] then xs.filter (fun s => !s.isEmpty)
      else x :: xs.filter (fun s => !s.isEmpty) := by
  by_cases h : x = []
  · have hE : x.isEmpty = true := by simp [List.isEmpty_iff, h]
    simp [List.filter_cons, hE, h]
  · have hE : x.isEmpty = false := by simp [List.isEmpty_iff, h]
    simp [List.filter_cons, hE, h]

theorem splitRun_eq_scanSegs (st : ScanState) (prev : Option Char) (cur : List Char)
    (l : List Char) :
    splitRun st prev cur l =
      ((scanSegs st prev cur l).map goTrim).filter (fun s => !s.isEmpty) := by
  induction st, prev, cur, l using scanSegs.induct with
  | case1 st prev cur =>
    by_cases h : goTrim cur = [] <;>
      simp [splitRun, scanSegs, emitStmt, filter_nonblank_cons, h]
  | case2 st prev cur ch r hsplit =>
    have hs : (scanStep st prev ch none).split = true := hsplit
    by_cases h : goTrim cur = [] <;>
      simp [splitRun, scanSegs, hs, emitStmt, filter_nonblank_cons, h, goTrim_nil]
  | case3 st prev cur ch r hsplit =>
    have hs : ¬(scanStep st prev ch none).split = true := hsplit
    by_cases h : goTrim (cur ++ [ch]) = [] <;>
      simp [splitRun, scanSegs, hs, emitStmt, filter_nonblank_cons, h]
  | case4 st prev cur ch next rest2 r hsplit ih =>
    have hs : (scanStep st prev ch (some next)).split = true := hsplit
    by_cases h : goTrim cur = [] <;>
      simp [splitRun, scanSegs, hs, emitStmt, filter_nonblank_cons, h, ih]
  | case5 st prev cur ch next rest2 r hsplit htwo ih =>
    have hs : ¬(scanStep st prev ch (some next)).split = true := hsplit
    have ht : (scanStep st prev ch (some next)).twoChars = true := htwo
    simpa [splitRun, scanSegs, hs, ht] using ih
  | case6 st prev cur ch next rest2 r hsplit htwo ih =>
    have hs : ¬(scanStep st prev ch (some next)).split = true := hsplit
    have ht : ¬(scanStep st prev ch (some next)).twoChars = true := htwo
    simpa [splitRun, scanSegs, hs, ht] using ih

theorem mem_splitRun_spec (st : ScanState) (prev : Option Char) (cur : List Char)
    (l : List Char) (s : List Char) (h : s ∈ splitRun st prev cur l) :
    s ≠ [] ∧ goTrim s = s := by
  rw [splitRun_eq_scanSegs] at h
  rw [List.mem_filter] at h
  obtain ⟨hmem, hne⟩ := h
  rw [List.mem_map] at hmem
  obtain ⟨raw, _, hraw⟩ := hmem
  constructor
  · simpa using hne
  · rw [← hraw, goTrim_idem]

/-! ## Migration driver (main.go `run`, lines 156-282)

The database backend is abstracted as a success predicate `exec` on executed
statement texts and a success predicate `recordOK` on ledger inserts
(`recordMigration`, main.go lines 381-390, performs a plain INSERT with no
existence check; a failed insert is only a warning).  `appliedMap` is the
snapshot produced by `getAppliedMigrations`; it is never updated mid-run. -/

/-- Metadata of one migration file (`MigrationInfo`, main.go lines 40-45). -/
structure MigrationInfo where
  version : String
  description : String
  filename : String
  checksum : String
deriving DecidableEq, Repr

/-- Lookup in the applied-state mapping (`appliedMigrations[info.Version]`).
The mapping is an association list with unique keys (built by a Go map). -/
def lookupVersion (m : List (String × String)) (v : String) : Option String :=
  (m.find? (fun p => p.1 == v)).map (fun p => p.2)

/-- Outcome of the prior-state gate of the run loop. -/
inductive PriorCheck where
  | skip
  | reject (expected : String)
  | proceed
deriving DecidableEq, Repr

/-- The prior-state gate of `run` (main.go lines 234-252): with no force
flag and a non-empty version, a version present in the applied state is
skipped on identical checksum and rejected (fatal) on a different one;
everything else proceeds to execution. -/
def checkPrior (force : Bool) (appliedMap : List (String × String))
    (info : MigrationInfo) : PriorCheck :=
  if force = false ∧ info.version ≠ "" then
    match lookupVersion appliedMap info.version with
    | some existing =>
      if existing = info.checksum then PriorCheck.skip
      else PriorCheck.reject existing
    | none => PriorCheck.proceed
  else PriorCheck.proceed

/-- The statement loop of `executeSQLWithWriter` (main.go lines 556-570):
each statement is trimmed, blank ones skipped, and the first failure stops
the loop reporting the 1-based loop index `i+1`.  Returns the successfully
executed statements and the failing index, if any. -/
def execStatements (exec : List Char → Bool) :
    Nat → List (List Char) → List (List Char) × Option Nat
  | _, [] => ([], none)
  | i, s :: rest =>
    if goTrim s = [] then execStatements exec (i + 1) rest
    else if exec (goTrim s) = true then
      let r := execStatements exec (i + 1) rest
      (goTrim s :: r.1, r.2)
    else ([], some (i + 1))

/-- Final status of a run of the file loop. -/
inductive RunStatus where
  | success
  | checksumMismatch (version expected current : String)
  | statementFailed (filename : String) (stmtIndex : Nat)
deriving DecidableEq, Repr

/-- Observable result of the file loop: the statements executed against the
backend (in order), the rows inserted into the `schema_versions` ledger (in
order), the two run counters, and the exit status. -/
structure RunResult where
  executed : List (List Char)
  ledger : List MigrationInfo
  applied : Nat
  skipped : Nat
  status : RunStatus
deriving DecidableEq, Repr

/-- The per-file loop of `run` (main.go lines 228-268).  Each file comes
with its parsed `MigrationInfo` and raw content; on APPLY the content is
split by `splitSQLStatements` and executed statement by statement, then the
migration is recorded when it has a version (rows appear in the ledger when
the backend insert succeeds).  A checksum mismatch or statement failure
aborts the whole run. -/
def runFiles (force : Bool) (appliedMap : List (String × String))
    (exec : List Char → Bool) (recordOK : MigrationInfo → Bool) :
    List (MigrationInfo × List Char) → RunResult
  | [] => { executed := [], ledger := [], applied := 0, skipped := 0,
            status := RunStatus.success }
  | (info, content) :: rest =>
    match checkPrior force appliedMap info with
    | PriorCheck.skip =>
      let r := runFiles force appliedMap exec recordOK rest
      { r with skipped := r.skipped + 1 }
    | PriorCheck.reject expected =>
      { executed := [], ledger := [], applied := 0, skipped := 0,
        status := RunStatus.checksumMismatch info.version expected info.checksum }
    | PriorCheck.proceed =>
      let e := execStatements exec 0 (splitSQLStatements content)
      match e.2 with
      | some i =>
        { executed := e.1, ledger := [], applied := 0, skipped := 0,
          status := RunStatus.statementFailed info.filename i }
      | none =>
        let r := runFiles force appliedMap exec recordOK rest
        { executed := e.1 ++ r.executed,
          ledger := (if info.version ≠ "" ∧ recordOK info = true then [info] else [])
            ++ r.ledger,
          applied := r.applied + 1,
          skipped := r.skipped,
          status := r.status }

/-- `getAppliedMigrations` (main.go lines 325-340): rows with an empty
version are dropped; a Go map insert overwrites any previous entry for the
same key. -/
def buildAppliedMap (rows : List (String × String)) : List (String × String) :=
  rows.foldl
    (fun m row =>
      if row.1 ≠ "" then m.filter (fun p => p.1 ≠ row.1) ++ [row] else m)
    []

/-- The applied-state acquisition step of `run` (main.go lines 208-215): a
failing ledger query is non-fatal; the run continues with an empty mapping
and a note is printed only when debug logging is on.  The second component
collects the diagnostics written for this step. -/
def loadAppliedState (debug : Bool) (q : Except String (List (String × String))) :
    List (String × String) × List String :=
  match q with
  | Except.ok rows => (buildAppliedMap rows, [])
  | Except.error e =>
    ([], if debug = true
      then ["Note: Could not query schema_versions (table may not exist yet): " ++ e]
      else [])

/-- `run` from the applied-state query onward: load (or default) the
applied state, then process the files. -/
def runMigrations (debug force : Bool) (q : Except String (List (String × String)))
    (exec : List Char → Bool) (recordOK : MigrationInfo → Bool)
    (files : List (MigrationInfo × List Char)) : RunResult × List String :=
  let s := loadAppliedState debug q
  (runFiles force s.1 exec recordOK files, s.2)

/-- The five per-file decisions of the driver. -/
inductive SpecDecision where
  | alwaysApply
  | applyRecord
  | skipFile
  | rejectFile
deriving DecidableEq, Repr

/-- The decision the code takes for one file: the prior-state gate
`checkPrior` used by `runFiles`, combined with its recording rule (a file
is recorded after execution exactly when its version is non-empty,
main.go lines 260-266). -/
def codeDecision (force : Bool) (appliedMap : List (String × String))
    (info : MigrationInfo) : SpecDecision :=
  match checkPrior force appliedMap info with
  | PriorCheck.skip => SpecDecision.skipFile
  | PriorCheck.reject _ => SpecDecision.rejectFile
  | PriorCheck.proceed =>
    if info.version = "" then SpecDecision.alwaysApply else SpecDecision.applyRecord

/-- The per-file decision exactly as the specification words it (claim C1 /
spec section 4.5): an unversioned file is always executed and never
recorded; with force set every file is executed (versioned ones recorded);
otherwise a versioned file is applied-and-recorded when its version is
absent, skipped on an identical checksum, and rejected on a differing
checksum. -/
def specDecision (force : Bool) (appliedMap : List (String × String))
    (info : MigrationInfo) : SpecDecision :=
  if info.version = "" then SpecDecision.alwaysApply
  else if force = true then SpecDecision.applyRecord
  else
    match lookupVersion appliedMap info.version with
    | none => SpecDecision.applyRecord
    | some c =>
      if c = info.checksum then SpecDecision.skipFile else SpecDecision.rejectFile

/-! ## Index resolver (`processWithWriter`, main.go lines 502-541)

The filesystem is a partial map from paths to line lists.  `filepath.Dir`
and `filepath.Join` are modelled for clean relative paths (no `.` or `..`
segments), which is how the tool is driven: `Dir` drops everything from the
last separator on, `Join` concatenates with a separator.  The Go recursion
has no cycle detection; termination is modelled with fuel, and a claim about
a successful resolution is independent of the (sufficiently large) fuel. -/

/-- `filepath.Dir` for clean relative paths: the part before the last
slash, or `.` if there is no slash. -/
def dirOf (p : List Char) : List Char :=
  match p.reverse.dropWhile (fun c => c ≠ '/') with
  | [] => ['.']
  | _ :: t => t.reverse

/-- `filepath.Join dir name` for clean arguments. -/
def joinPath (dir name : List Char) : List Char :=
  dir ++ '/' :: name

/-- One line of `processWithWriter`s loop (main.go lines 514-534), with
`sub` the resolver for nested manifests and `acc` the resolution of the
remaining lines: lines are trimmed; blank and `#` lines are skipped; a
`.lst` line is resolved by `sub` against the directory of the *referencing*
manifest and its files spliced in place; a `.sql` line prepends its joined
path; anything else is a warning and is dropped.  Errors propagate from the
leftmost failing entry. -/
def entryStep (sub : List Char → Except Unit (List (List Char))) (dir : List Char)
    (l : List Char) (acc : Except Unit (List (List Char))) :
    Except Unit (List (List Char)) :=
  let line := goTrim l
  if line = [] ∨ line.head? = some '#' then acc
  else if (".lst").data.isSuffixOf line = true then
    match sub (joinPath dir line) with
    | Except.error e => Except.error e
    | Except.ok nested =>
      match acc with
      | Except.error e => Except.error e
      | Except.ok more => Except.ok (nested ++ more)
  else if (".sql").data.isSuffixOf line = true then
    match acc with
    | Except.error e => Except.error e
    | Except.ok more => Except.ok (joinPath dir line :: more)
  else acc

/-- The whole-manifest entry point of `processWithWriter` (main.go lines
502-541): open the manifest (error when unreadable, or when the fuel that
models the unbounded, cycle-unsafe Go recursion runs out) and fold its
lines against its own directory. -/
def processManifest (fs : List Char → Option (List (List Char))) :
    Nat → List Char → Except Unit (List (List Char))
  | 0, _ => Except.error ()
  | fuel + 1, path =>
    match fs path with
    | none => Except.error ()
    | some lines =>
      lines.foldr
        (fun l acc => entryStep (fun p => processManifest fs fuel p) (dirOf path) l acc)
        (Except.ok [])

/-! ## Migration parser (`parseMigrationInfo`, main.go lines 343-378)

Only the header scan is modelled; reading the file and splitting it into
lines are I/O, and the MD5 checksum is an opaque fingerprint carried in
`MigrationInfo.checksum`.  The two header regexes
`^--\s*version:\s*(.+)$` and `^--\s*description:\s*(.+)$` are unravelled:
after the literal `--`, greedy `\s*` can only consume the maximal run of
regex whitespace, the literal key must follow, and the capture is the
non-empty remainder, which `strings.TrimSpace` then trims (RE2 `\s` is a
subset of Go unicode whitespace, so trimming the remainder directly is
equivalent). -/

/-- RE2 `\s`: tab, newline, form feed, carriage return, space. -/
def reSpace (c : Char) : Bool :=
  decide (c = '\t' ∨ c = '\n' ∨ c.toNat = 12 ∨ c = '\r' ∨ c = ' ')

/-- The value a header line assigns to the field named `key` (already
including the trailing colon), or `none` when the regex does not match. -/
def headerValue (key : List Char) (line : List Char) : Option (List Char) :=
  match line with
  | '-' :: '-' :: rest =>
    let r := rest.dropWhile reSpace
    if key.isPrefixOf r = true then
      let v := r.drop key.length
      if v = [] then none else some (goTrim v)
    else none
  | _ => none

/-- `versionRegex` (main.go line 51) applied to one line. -/
def versionValue (line : List Char) : Option (List Char) :=
  headerValue (("version:").data) line

/-- `descriptionRegex` (main.go line 52) applied to one line. -/
def descriptionValue (line : List Char) : Option (List Char) :=
  headerValue (("description:").data) line

/-- The header scan loop of `parseMigrationInfo` (main.go lines 358-375):
process lines while fewer than 10 have been consumed, each matching line
overwriting the field, stopping as soon as both fields are non-empty. -/
def scanHeader : Nat → List Char → List Char → List (List Char) → List Char × List Char
  | _, v, d, [] => (v, d)
  | count, v, d, line :: rest =>
    if count < 10 then
      let v' := (versionValue line).getD v
      let d' := (descriptionValue line).getD d
      if v' ≠ [] ∧ d' ≠ [] then (v', d')
      else scanHeader (count + 1) v' d' rest
    else (v, d)

/-- Version and description extracted from a file given as its list of
lines (`parseMigrationInfo` without the I/O and checksum parts). -/
def parseMigrationHeader (lines : List (List Char)) : List Char × List Char :=
  scanHeader 0 [] [] lines

/-! ## Claims -/

/-- C1: for every file the drivers per-file decision is exactly the
specifications state machine: an unversioned file is always executed and
never recorded; without force, a versioned file is executed and recorded
when its version is absent from the applied state, skipped when present
with an identical checksum, and rejected (fatal) when present with a
different checksum; with force, every file is executed regardless of prior
state, versioned ones still recorded. -/
theorem claim_C1 (force : Bool) (appliedMap : List (String × String))
    (info : MigrationInfo) :
    codeDecision force appliedMap info = specDecision force appliedMap info := by
  unfold codeDecision specDecision checkPrior
  by_cases hv : info.version = ""
  · by_cases hf : force = false <;> simp [hv, hf]
  · by_cases hf : force = false
    · simp only [hf, hv, ne_eq, not_false_iff, and_true, if_true, true_and, if_pos]
      cases lookupVersion appliedMap info.version with
      | none => simp [hv]
      | some c => by_cases hc : c = info.checksum <;> simp [hv, hc]
    · have hf' : force = true := by revert hf; cases force <;> simp
      simp [hv, hf, hf']

theorem scanStep_semi_in_mode (st : ScanState) (prev : Option Char) (ahead : Option Char)
    (h : st.inSingleQuote = true ∨ st.inDoubleQuote = true ∨ st.inLineComment = true ∨
      st.inBlockComment = true) :
    scanStep st prev ';' ahead = ⟨st, false, false⟩ := by
  unfold scanStep
  split_ifs <;> simp_all [squote]

/-- The first statement of the C2 example:
`INSERT INTO t VALUES ('a;b')`. -/
def c2stmt1 : List Char :=
  ("INSERT INTO t VALUES (").data ++ squote :: ("a;b").data ++ [squote, ')']

/-- The C2 example input: `INSERT INTO t VALUES ('a;b'); SELECT 1;`. -/
def c2input : List Char := c2stmt1 ++ ("; SELECT 1;").data

/-- C2: a semicolon reached while any of the four mode flags is set is not
treated as a statement boundary — the scanner just copies it into the
current buffer, leaving the state unchanged; and the example splits into
exactly two statements with the quoted `a;b` intact. -/
theorem claim_C2 :
    (∀ (st : ScanState) (prev : Option Char) (cur rest : List Char),
      (st.inSingleQuote = true ∨ st.inDoubleQuote = true ∨ st.inLineComment = true ∨
        st.inBlockComment = true) →
      splitRun st prev cur (';' :: rest) = splitRun st (some ';') (cur ++ [';']) rest) ∧
    splitSQLStatements c2input = [c2stmt1, ("SELECT 1").data] ∧
    (∃ s t, c2stmt1 = s ++ ("a;b").data ++ t) := by
  refine ⟨?_, by decide,
    ⟨("INSERT INTO t VALUES (").data ++ [squote], [squote, ')'], by decide⟩⟩
  intro st prev cur rest h
  cases rest with
  | nil =>
    have hstep := scanStep_semi_in_mode st prev none h
    simp [splitRun, hstep]
  | cons next rest2 =>
    have hstep := scanStep_semi_in_mode st prev (some next) h
    simp [splitRun, hstep]

/-- C2 witness: inside a single-quoted literal a semicolon does not split. -/
theorem claim_C2_witness :
    splitRun ⟨true, false, false, false⟩ none [] [';'] =
      splitRun ⟨true, false, false, false⟩ (some ';') [';'] [] :=
  (claim_C2).1 ⟨true, false, false, false⟩ none [] [] (Or.inl rfl)

/-- C9: a quote character immediately preceded by a backslash never toggles
its string-literal flag: the scanner leaves the corresponding mode flag
unchanged at that character. -/
theorem claim_C9 (st : ScanState) (prev : Option Char) (ch : Char)
    (ahead : Option Char) (hprev : prev = some bslash) :
    (ch = squote → (scanStep st prev ch ahead).state.inSingleQuote = st.inSingleQuote) ∧
    (ch = '"' → (scanStep st prev ch ahead).state.inDoubleQuote = st.inDoubleQuote) := by
  subst hprev
  constructor <;> intro hch <;> subst hch <;> unfold scanStep <;>
    split_ifs <;> simp_all [squote]

/-- C9 witness: a backslash-escaped single quote does not open a string. -/
theorem claim_C9_witness :
    (scanStep {} (some bslash) squote none).state.inSingleQuote =
      ({} : ScanState).inSingleQuote :=
  (claim_C9 {} (some bslash) squote none rfl).1 rfl

set_option maxHeartbeats 1000000 in
theorem scanStep_exclusive (st : ScanState) (prev : Option Char) (ch : Char)
    (ahead : Option Char) (hex : st.exclusive) :
    (scanStep st prev ch ahead).state.exclusive := by
  obtain ⟨sq, dq, lc, bc⟩ := st
  cases sq <;> cases dq <;> cases lc <;> cases bc <;>
    first
      | exact absurd hex (by decide)
      | (unfold scanStep; split_ifs <;> first | decide | simp_all)

theorem mem_scanStates_exclusive (st : ScanState) (prev : Option Char) (l : List Char)
    (hex : st.exclusive) : ∀ s ∈ scanStates st prev l, s.exclusive := by
  induction st, prev, l using scanStates.induct with
  | case1 st prev =>
    intro s hs
    simp [scanStates] at hs
    rwa [hs]
  | case2 st prev ch =>
    intro s hs
    simp [scanStates] at hs
    rcases hs with h | h
    · rwa [h]
    · rw [h]; exact scanStep_exclusive st prev ch none hex
  | case3 st prev ch next rest2 r htwo ih =>
    intro s hs
    have ht : (scanStep st prev ch (some next)).twoChars = true := htwo
    simp only [scanStates, ht, if_true, List.mem_cons] at hs
    rcases hs with h | h
    · rwa [h]
    · exact ih (scanStep_exclusive st prev ch (some next) hex) s h
  | case4 st prev ch next rest2 r htwo ih =>
    intro s hs
    have ht : ¬(scanStep st prev ch (some next)).twoChars = true := htwo
    simp only [scanStates, ht, Bool.false_eq_true, if_false, List.mem_cons] at hs
    rcases hs with h | h
    · rwa [h]
    · exact ih (scanStep_exclusive st prev ch (some next) hex) s h

set_option maxHeartbeats 1000000 in
theorem scanStep_block_guard (st : ScanState) (prev : Option Char) (ch : Char)
    (ahead : Option Char) (hex : st.exclusive)
    (hmode : st.inSingleQuote = true ∨ st.inDoubleQuote = true ∨ st.inLineComment = true) :
    (scanStep st prev ch ahead).state.inBlockComment = st.inBlockComment ∧
    (scanStep st prev ch ahead).twoChars = false := by
  obtain ⟨sq, dq, lc, bc⟩ := st
  cases sq <;> cases dq <;> cases lc <;> cases bc <;>
    first
      | exact absurd hex (by decide)
      | exact absurd hmode (by decide)
      | (unfold scanStep; split_ifs <;> first | decide | simp_all)

theorem scanStep_lc_persists (st : ScanState) (prev : Option Char) (ch : Char)
    (ahead : Option Char) (hlc : st.inLineComment = true) (h1 : ch ≠ '\n')
    (h2 : ch ≠ '\r') : (scanStep st prev ch ahead).state.inLineComment = true := by
  unfold scanStep
  split_ifs <;> simp_all

theorem scanStep_lc_ends (st : ScanState) (prev : Option Char) (ch : Char)
    (ahead : Option Char) (hlc : st.inLineComment = true) (h : ch = '\n' ∨ ch = '\r') :
    (scanStep st prev ch ahead).state.inLineComment = false := by
  unfold scanStep
  split_ifs <;> simp_all [squote]

/-- C10: along the scan of any input from the initial state, the four mode
flags are mutually exclusive (at most one set) at every iteration; a
character can only open or close a block comment (including the two
character `*/` consume) when no other mode is active; and a line comment
persists through every character other than a newline or carriage return
and ends exactly at those. -/
theorem claim_C10 :
    (∀ input : List Char, ∀ s ∈ scanStates {} none input, s.exclusive) ∧
    (∀ (st : ScanState) (prev : Option Char) (ch : Char) (ahead : Option Char),
      st.exclusive →
      (st.inSingleQuote = true ∨ st.inDoubleQuote = true ∨ st.inLineComment = true) →
      (scanStep st prev ch ahead).state.inBlockComment = st.inBlockComment ∧
      (scanStep st prev ch ahead).twoChars = false) ∧
    (∀ (st : ScanState) (prev : Option Char) (ch : Char) (ahead : Option Char),
      st.inLineComment = true → ch ≠ '\n' → ch ≠ '\r' →
      (scanStep st prev ch ahead).state.inLineComment = true) ∧
    (∀ (st : ScanState) (prev : Option Char) (ch : Char) (ahead : Option Char),
      st.inLineComment = true → (ch = '\n' ∨ ch = '\r') →
      (scanStep st prev ch ahead).state.inLineComment = false) := by
  refine ⟨?_, scanStep_block_guard, scanStep_lc_persists, scanStep_lc_ends⟩
  intro input
  exact mem_scanStates_exclusive {} none input (by decide)

/-- C10 witness: the states seen while scanning a small input are
exclusive. -/
theorem claim_C10_witness : ScanState.exclusive {} :=
  (claim_C10).1 (("ab").data) {} (by decide)

/-- C8: the splitter is total and never errors; every emitted statement is
non-blank and already whitespace-trimmed; and every input decomposes into raw
segments whose semicolon-rejoin reproduces the input exactly, with the output
being those segments trimmed and the blank ones discarded (so for inputs with
no blank segment, rejoining the output with semicolons reproduces the input
modulo the per-statement trimming; the final segment is emitted without a
trailing semicolon). -/
theorem claim_C8 (sql : List Char) :
    (∀ s ∈ splitSQLStatements sql, s ≠ [] ∧ goTrim s = s) ∧
    ∃ segs : List (List Char), joinSemi segs = sql ∧
      splitSQLStatements sql = (segs.map goTrim).filter (fun s => !s.isEmpty) := by
  constructor
  · intro s hs
    exact mem_splitRun_spec {} none [] sql s hs
  · exact ⟨scanSegs {} none [] sql, by simpa using joinSemi_scanSegs {} none [] sql,
      splitRun_eq_scanSegs {} none [] sql⟩

/-- C8 witness at a concrete input. -/
theorem claim_C8_witness :
    ("SELECT 1").data ≠ [] ∧ goTrim (("SELECT 1").data) = ("SELECT 1").data :=
  (claim_C8 (("SELECT 1; ").data)).1 (("SELECT 1").data) (by decide)

theorem execStatements_fail_spec (exec : List Char → Bool) :
    ∀ (stmts : List (List Char)) (i : Nat) (log : List (List Char)) (j : Nat),
    execStatements exec i stmts = (log, some j) →
    ∃ k, k < stmts.length ∧ j = i + k + 1 ∧
      goTrim (stmts.getD k []) ≠ [] ∧ exec (goTrim (stmts.getD k [])) = false ∧
      log = ((stmts.take k).map goTrim).filter (fun s => !s.isEmpty) ∧
      ∀ m, m < k → goTrim (stmts.getD m []) = [] ∨
        exec (goTrim (stmts.getD m [])) = true := by
  intro stmts
  induction stmts with
  | nil =>
    intro i log j h
    simp [execStatements] at h
  | cons s rest ih =>
    intro i log j h
    by_cases hblank : goTrim s = []
    · rw [execStatements, if_pos hblank] at h
      obtain ⟨k, hk, hj, hne, hex, hlog, hall⟩ := ih (i + 1) log j h
      refine ⟨k + 1, by simpa using hk, by omega, by simpa using hne, by simpa using hex,
        ?_, ?_⟩
      · simp only [List.take_succ_cons, List.map_cons, filter_nonblank_cons, hblank,
          if_true]
        exact hlog
      · intro m hm
        cases m with
        | zero => exact Or.inl (by simpa using hblank)
        | succ m => simpa using hall m (by omega)
    · by_cases hexec : exec (goTrim s) = true
      · rw [execStatements, if_neg hblank, if_pos hexec] at h
        have h2 : execStatements exec (i + 1) rest =
            ((execStatements exec (i + 1) rest).1, some j) := by
          have := congrArg Prod.snd h
          simp at this
          rw [Prod.ext_iff]
          exact ⟨rfl, this⟩
        obtain ⟨k, hk, hj, hne, hex, hlog, hall⟩ :=
          ih (i + 1) (execStatements exec (i + 1) rest).1 j h2
        have hlog' : log = goTrim s :: (execStatements exec (i + 1) rest).1 := by
          have := congrArg Prod.fst h
          simpa using this.symm
        refine ⟨k + 1, by simpa using hk, by omega, by simpa using hne,
          by simpa using hex, ?_, ?_⟩
        · simp only [List.take_succ_cons, List.map_cons, filter_nonblank_cons, hblank,
            if_neg hblank]
          rw [hlog', hlog]
          simp
        · intro m hm
          cases m with
          | zero => exact Or.inr (by simpa using hexec)
          | succ m => simpa using hall m (by omega)
      · rw [execStatements, if_neg hblank, if_neg hexec] at h
        have hlog : log = [] := by
          have := congrArg Prod.fst h
          simpa using this.symm
        have hj : j = i + 1 := by
          have := congrArg Prod.snd h
          simpa using this.symm
        refine ⟨0, by simp, by omega, by simpa using hblank, ?_, by simp [hlog], ?_⟩
        · simpa using hexec
        · intro m hm
          omega

/-- C4: when the prior-state gate lets a file through and one of its
statements fails, the whole run aborts at that file: the reported index is
the 1-based position of the failing statement among the files split
statements, every earlier statement of the file was blank or executed
successfully and stays executed (no rollback), and neither the remaining
statements, nor any later file, nor the files ledger record happen. -/
theorem claim_C4 (force : Bool) (appliedMap : List (String × String))
    (exec : List Char → Bool) (recordOK : MigrationInfo → Bool)
    (info : MigrationInfo) (content : List Char)
    (rest : List (MigrationInfo × List Char)) (log : List (List Char)) (i : Nat)
    (hgate : checkPrior force appliedMap info = PriorCheck.proceed)
    (hfail : execStatements exec 0 (splitSQLStatements content) = (log, some i)) :
    runFiles force appliedMap exec recordOK ((info, content) :: rest) =
      { executed := log, ledger := [], applied := 0, skipped := 0,
        status := RunStatus.statementFailed info.filename i } ∧
    1 ≤ i ∧ i ≤ (splitSQLStatements content).length ∧
    goTrim ((splitSQLStatements content).getD (i - 1) []) ≠ [] ∧
    exec (goTrim ((splitSQLStatements content).getD (i - 1) [])) = false ∧
    log = (((splitSQLStatements content).take (i - 1)).map goTrim).filter
      (fun s => !s.isEmpty) ∧
    ∀ m, m < i - 1 → goTrim ((splitSQLStatements content).getD m []) = [] ∨
      exec (goTrim ((splitSQLStatements content).getD m [])) = true := by
  obtain ⟨k, hk, hj, hne, hex, hlog, hall⟩ :=
    execStatements_fail_spec exec (splitSQLStatements content) 0 log i hfail
  have hik : i - 1 = k := by omega
  refine ⟨?_, by omega, by omega, by rwa [hik], by rwa [hik], by rwa [hik], ?_⟩
  · simp [runFiles, hgate, hfail]
  · intro m hm
    exact hall m (by omega)

/-- C4 witness: a failing second statement aborts the run with index 2,
keeping the first statement executed and the ledger empty. -/
theorem claim_C4_witness :
    runFiles false [] (fun s => !(s == ("BOOM").data)) (fun _ => true)
        [({ version := "", description := "", filename := "f.sql", checksum := "" },
          ("SELECT 1; BOOM; SELECT 2;").data)] =
      { executed := [("SELECT 1").data], ledger := [], applied := 0, skipped := 0,
        status := RunStatus.statementFailed ("f.sql") 2 } :=
  (claim_C4 false [] (fun s => !(s == ("BOOM").data)) (fun _ => true)
    { version := "", description := "", filename := "f.sql", checksum := "" }
    (("SELECT 1; BOOM; SELECT 2;").data) [] [("SELECT 1").data] 2
    (by decide) (by decide)).1

theorem checkPrior_proceed_absent (appliedMap : List (String × String))
    (info : MigrationInfo) (h : checkPrior false appliedMap info = PriorCheck.proceed)
    (hv : info.version ≠ "") : lookupVersion appliedMap info.version = none := by
  unfold checkPrior at h
  rcases hlk : lookupVersion appliedMap info.version with _ | c
  · rfl
  · rw [if_pos ⟨rfl, hv⟩, hlk] at h
    by_cases hc : c = info.checksum <;> simp [hc] at h

/-- C5 (amended): recording performs no existence check, so the claimed
at-most-one-row-per-version invariant fails under force (see the
counterexample); what does hold is that a run without the force flag only
inserts ledger rows whose version is non-empty and absent from the loaded
applied-state mapping. -/
theorem claim_C5 (appliedMap : List (String × String)) (exec : List Char → Bool)
    (recordOK : MigrationInfo → Bool) (files : List (MigrationInfo × List Char))
    (info : MigrationInfo)
    (hmem : info ∈ (runFiles false appliedMap exec recordOK files).ledger) :
    info.version ≠ "" ∧ lookupVersion appliedMap info.version = none := by
  induction files with
  | nil => simp [runFiles] at hmem
  | cons fc rest ih =>
    obtain ⟨fi, content⟩ := fc
    rcases hgate : checkPrior false appliedMap fi with _ | expected | _
    · rw [runFiles] at hmem
      rw [hgate] at hmem
      exact ih hmem
    · rw [runFiles] at hmem
      rw [hgate] at hmem
      simp at hmem
    · rw [runFiles] at hmem
      rw [hgate] at hmem
      rcases hres : (execStatements exec 0 (splitSQLStatements content)).2 with _ | j
      · simp only [hres, List.mem_append] at hmem
        rcases hmem with hmem | hmem
        · by_cases hcond : fi.version ≠ "" ∧ recordOK fi = true
          · rw [if_pos hcond] at hmem
            simp at hmem
            subst hmem
            exact ⟨hcond.1, checkPrior_proceed_absent appliedMap info hgate hcond.1⟩
          · rw [if_neg hcond] at hmem
            simp at hmem
        · exact ih hmem
      · simp only [hres] at hmem
        simp at hmem

def c5row : MigrationInfo :=
  { version := "1.0.0", description := "d", filename := "f.sql", checksum := "X" }

/-- C5 counterexample: with force set, re-executing a file whose version
`1.0.0` already has a ledger row (and is present in the applied state with
the same checksum) inserts a second row, so the ledger holds two rows for
that version. -/
theorem claim_C5_cex :
    ((c5row :: (runFiles true [(("1.0.0"), ("X"))] (fun _ => true) (fun _ => true)
        [(c5row, ("SELECT 1;").data)]).ledger).filter
      (fun r => r.version == ("1.0.0"))).length = 2 := by decide

/-- C5 witness: a freshly recorded row of a non-force run has a non-empty
version that was absent from the applied state. -/
theorem claim_C5_witness :
    c5row.version ≠ "" ∧ lookupVersion [] c5row.version = none :=
  claim_C5 [] (fun _ => true) (fun _ => true) [(c5row, ("SELECT 1;").data)] c5row
    (by decide)

/-- C6 (amended): any failure of the applied-migrations ledger query is
non-fatal — the run proceeds with an empty applied-state mapping, so every
file is decided as if nothing were applied; the failure is reported as a
diagnostic note only when debug logging is enabled, and is silent
otherwise. -/
theorem claim_C6 (debug force : Bool) (e : String) (exec : List Char → Bool)
    (recordOK : MigrationInfo → Bool) (files : List (MigrationInfo × List Char)) :
    runMigrations debug force (Except.error e) exec recordOK files =
      (runFiles force [] exec recordOK files,
        if debug = true
        then [("Note: Could not query schema_versions (table may not exist yet): ") ++ e]
        else []) := by
  rfl

/-- C6 counterexample: with debug off, a failing ledger query produces no
diagnostic at all. -/
theorem claim_C6_cex :
    (runMigrations false false (Except.error ("relation does not exist"))
      (fun _ => true) (fun _ => true) []).2 = [] := rfl

theorem scanHeader_take (lines : List (List Char)) :
    ∀ (count : Nat) (v d : List Char), count ≤ 10 →
    scanHeader count v d lines = scanHeader count v d (lines.take (10 - count)) := by
  induction lines with
  | nil => intro count v d h; simp
  | cons line rest ih =>
    intro count v d h
    by_cases hc : count < 10
    · have htake : (line :: rest).take (10 - count) =
          line :: rest.take (10 - (count + 1)) := by
        have : 10 - count = (10 - (count + 1)) + 1 := by omega
        rw [this, List.take_succ_cons]
      rw [htake]
      rw [scanHeader, scanHeader]
      rw [if_pos hc, if_pos hc]
      by_cases hboth : (versionValue line).getD v ≠ [] ∧ (descriptionValue line).getD d ≠ []
      · rw [if_pos hboth, if_pos hboth]
      · rw [if_neg hboth, if_neg hboth]
        exact ih (count + 1) _ _ (by omega)
    · have h10 : count = 10 := by omega
      subst h10
      simp [scanHeader]

theorem scanHeader_no_match (lines : List (List Char)) :
    ∀ (count : Nat) (v d : List Char),
    (∀ l ∈ lines, versionValue l = none ∧ descriptionValue l = none) →
    scanHeader count v d lines = (v, d) := by
  induction lines with
  | nil => intro count v d _; rfl
  | cons line rest ih =>
    intro count v d h
    obtain ⟨hv, hd⟩ := h line (by simp)
    by_cases hc : count < 10
    · rw [scanHeader, if_pos hc]
      simp only [hv, hd, Option.getD_none]
      by_cases hboth : v ≠ [] ∧ d ≠ []
      · rw [if_pos hboth]
      · rw [if_neg hboth]
        exact ih (count + 1) v d (fun l hl => h l (by simp [hl]))
    · rw [scanHeader, if_neg hc]

theorem scanHeader_no_desc (lines : List (List Char)) :
    ∀ (count : Nat) (v : List Char), count + lines.length ≤ 10 →
    (∀ l ∈ lines, descriptionValue l = none) →
    scanHeader count v [] lines =
      (lines.foldl (fun acc l => (versionValue l).getD acc) v, []) := by
  induction lines with
  | nil => intro count v _ _; rfl
  | cons line rest ih =>
    intro count v hlen h
    have hd := (h line (by simp))
    have hc : count < 10 := by
      have := hlen
      simp [List.length_cons] at this
      omega
    rw [scanHeader, if_pos hc]
    simp only [hd, Option.getD_none]
    rw [if_neg (by simp)]
    rw [ih (count + 1) _ (by simp at hlen; omega) (fun l hl => h l (by simp [hl]))]
    simp

/-- C3 (amended): the header scan examines at most the first 10 lines; each
matching line overwrites the field, so the last match before scanning stops
wins (in particular, when no line matches the description field the version
field is the left fold of all version matches over the first 10 lines);
scanning stops at the first line that leaves both fields non-empty; and a
file whose headers appear after line 10 yields empty version and
description. -/
theorem claim_C3 :
    (∀ lines : List (List Char),
      parseMigrationHeader lines = parseMigrationHeader (lines.take 10)) ∧
    (∀ (count : Nat) (v d line : List Char) (rest : List (List Char)),
      count < 10 → (versionValue line).getD v ≠ [] →
      (descriptionValue line).getD d ≠ [] →
      scanHeader count v d (line :: rest) =
        ((versionValue line).getD v, (descriptionValue line).getD d)) ∧
    (∀ lines : List (List Char),
      (∀ l ∈ lines.take 10, versionValue l = none ∧ descriptionValue l = none) →
      parseMigrationHeader lines = ([], [])) ∧
    (∀ lines : List (List Char),
      (∀ l ∈ lines.take 10, descriptionValue l = none) →
      parseMigrationHeader lines =
        ((lines.take 10).foldl (fun acc l => (versionValue l).getD acc) [], [])) := by
  refine ⟨?_, ?_, ?_, ?_⟩
  · intro lines
    exact scanHeader_take lines 0 [] [] (by omega)
  · intro count v d line rest hc hv hd
    rw [scanHeader, if_pos hc, if_pos ⟨hv, hd⟩]
  · intro lines h
    unfold parseMigrationHeader
    rw [scanHeader_take lines 0 [] [] (by omega)]
    exact scanHeader_no_match _ 0 [] [] (by simpa using h)
  · intro lines h
    unfold parseMigrationHeader
    rw [scanHeader_take lines 0 [] [] (by omega)]
    have hlen : (lines.take (10 - 0)).length ≤ 10 := by
      simp [List.length_take_le]
    exact scanHeader_no_desc _ 0 [] (by omega) (by simpa using h)

/-- C3 counterexample: the first matching version line carries `1.0`, but a
second version line within the window overwrites it, so the parsed version
is `2.0` — the claimed first-match-wins rule fails. -/
theorem claim_C3_cex :
    versionValue (("-- version: 1.0").data) = some (("1.0").data) ∧
    (parseMigrationHeader [("-- version: 1.0").data, ("-- version: 2.0").data]).1 =
      ("2.0").data ∧
    ("2.0").data ≠ ("1.0").data := by decide

/-- C3 witness: with no description lines, the version is the fold of the
version matches (here the later `2.0` wins). -/
theorem claim_C3_witness :
    parseMigrationHeader [("-- version: 1.0").data, ("-- version: 2.0").data] =
      (([("-- version: 1.0").data, ("-- version: 2.0").data].take 10).foldl
        (fun acc l => (versionValue l).getD acc) [], []) :=
  (claim_C3).2.2.2 [("-- version: 1.0").data, ("-- version: 2.0").data] (by decide)

theorem processManifest_succ (fs : List Char → Option (List (List Char))) (fuel : Nat)
    (path : List Char) (lines : List (List Char)) (h : fs path = some lines) :
    processManifest fs (fuel + 1) path =
      lines.foldr
        (fun l acc => entryStep (fun p => processManifest fs fuel p) (dirOf path) l acc)
        (Except.ok []) := by
  rw [processManifest, h]

theorem entryStep_sql (sub : List Char → Except Unit (List (List Char)))
    (dir l : List Char) (acc : Except Unit (List (List Char)))
    (hskip : ¬(goTrim l = [] ∨ (goTrim l).head? = some '#'))
    (hlst : (".lst").data.isSuffixOf (goTrim l) = false)
    (hsql : (".sql").data.isSuffixOf (goTrim l) = true) :
    entryStep sub dir l acc = acc.map (fun more => joinPath dir (goTrim l) :: more) := by
  unfold entryStep
  simp only [hlst, hsql, Bool.false_eq_true, if_false, if_true, if_neg hskip]
  cases acc <;> rfl

theorem entryStep_lst (sub : List Char → Except Unit (List (List Char)))
    (dir l : List Char) (acc : Except Unit (List (List Char)))
    (hskip : ¬(goTrim l = [] ∨ (goTrim l).head? = some '#'))
    (hlst : (".lst").data.isSuffixOf (goTrim l) = true) :
    entryStep sub dir l acc =
      (sub (joinPath dir (goTrim l))).bind
        (fun nested => acc.map (fun more => nested ++ more)) := by
  unfold entryStep
  simp only [hlst, if_true, if_neg hskip]
  cases sub (joinPath dir (goTrim l)) <;> cases acc <;> rfl

theorem chain_resolve (fs : List Char → Option (List (List Char))) (lb : List Char)
    (hlb : ¬(goTrim lb = [] ∨ (goTrim lb).head? = some '#') ∧ goTrim lb = lb ∧
      (".lst").data.isSuffixOf lb = false ∧ (".sql").data.isSuffixOf lb = true) :
    ∀ (n : Nat) (q link : Nat → List Char) (fuel : Nat),
    (∀ k, k < n → fs (q k) = some [link k]) →
    (∀ k, k < n → ¬(goTrim (link k) = [] ∨ (goTrim (link k)).head? = some '#') ∧
      goTrim (link k) = link k ∧ (".lst").data.isSuffixOf (link k) = true) →
    (∀ k, k < n → joinPath (dirOf (q k)) (link k) = q (k + 1)) →
    fs (q n) = some [lb] →
    n + 1 ≤ fuel →
    processManifest fs fuel (q 0) = Except.ok [joinPath (dirOf (q n)) lb] := by
  intro n
  induction n with
  | zero =>
    intro q link fuel h1 h2 h3 hterm hfuel
    obtain ⟨f, rfl⟩ : ∃ f, fuel = f + 1 := ⟨fuel - 1, by omega⟩
    rw [processManifest_succ fs f (q 0) [lb] hterm]
    simp only [List.foldr_cons, List.foldr_nil]
    rw [entryStep_sql _ _ _ _ hlb.1
      (by rw [hlb.2.1]; exact hlb.2.2.1) (by rw [hlb.2.1]; exact hlb.2.2.2)]
    simp [hlb.2.1, Except.map]
  | succ n ih =>
    intro q link fuel h1 h2 h3 hterm hfuel
    obtain ⟨f, rfl⟩ : ∃ f, fuel = f + 1 := ⟨fuel - 1, by omega⟩
    rw [processManifest_succ fs f (q 0) [link 0] (h1 0 (by omega))]
    obtain ⟨h0a, h0b, h0c⟩ := h2 0 (by omega)
    simp only [List.foldr_cons, List.foldr_nil]
    rw [entryStep_lst _ _ _ _ h0a (by rw [h0b]; exact h0c)]
    rw [h0b, h3 0 (by omega)]
    rw [ih (fun k => q (k + 1)) (fun k => link (k + 1)) f
      (fun k hk => h1 (k + 1) (by omega)) (fun k hk => h2 (k + 1) (by omega))
      (fun k hk => h3 (k + 1) (by omega)) hterm (by omega)]
    rfl

/-- C7: a `.sql` line contributes its path, resolved against the directory
of the manifest that references it, in place; a `.lst` line splices the
recursive resolution of its path (again resolved against the referencing
manifests directory) in place, preserving document order; consequently a
root manifest listing `a.sql` and then a chain of nested manifests of any
depth ending in one listing `b.sql` resolves to exactly `[a.sql, b.sql]`
(with each path joined to its own manifests directory). -/
theorem claim_C7 :
    (∀ (sub : List Char → Except Unit (List (List Char))) (dir l : List Char)
      (acc : Except Unit (List (List Char))),
      ¬(goTrim l = [] ∨ (goTrim l).head? = some '#') →
      (".lst").data.isSuffixOf (goTrim l) = false →
      (".sql").data.isSuffixOf (goTrim l) = true →
      entryStep sub dir l acc =
        acc.map (fun more => joinPath dir (goTrim l) :: more)) ∧
    (∀ (sub : List Char → Except Unit (List (List Char))) (dir l : List Char)
      (acc : Except Unit (List (List Char))),
      ¬(goTrim l = [] ∨ (goTrim l).head? = some '#') →
      (".lst").data.isSuffixOf (goTrim l) = true →
      entryStep sub dir l acc =
        (sub (joinPath dir (goTrim l))).bind
          (fun nested => acc.map (fun more => nested ++ more))) ∧
    (∀ (fs : List Char → Option (List (List Char))) (n : Nat)
      (q link : Nat → List Char) (la lb : List Char) (fuel : Nat),
      fs (q 0) = some [la, link 0] →
      (∀ k, k < n → fs (q (k + 1)) = some [link (k + 1)]) →
      fs (q (n + 1)) = some [lb] →
      (¬(goTrim la = [] ∨ (goTrim la).head? = some '#') ∧ goTrim la = la ∧
        (".lst").data.isSuffixOf la = false ∧ (".sql").data.isSuffixOf la = true) →
      (¬(goTrim lb = [] ∨ (goTrim lb).head? = some '#') ∧ goTrim lb = lb ∧
        (".lst").data.isSuffixOf lb = false ∧ (".sql").data.isSuffixOf lb = true) →
      (∀ k, k ≤ n → ¬(goTrim (link k) = [] ∨ (goTrim (link k)).head? = some '#') ∧
        goTrim (link k) = link k ∧ (".lst").data.isSuffixOf (link k) = true) →
      (∀ k, k ≤ n → joinPath (dirOf (q k)) (link k) = q (k + 1)) →
      n + 2 ≤ fuel →
      processManifest fs fuel (q 0) =
        Except.ok [joinPath (dirOf (q 0)) la, joinPath (dirOf (q (n + 1))) lb]) := by
  refine ⟨entryStep_sql, entryStep_lst, ?_⟩
  intro fs n q link la lb fuel hroot hmid hterm hla hlb hlink hjoin hfuel
  obtain ⟨f, rfl⟩ : ∃ f, fuel = f + 1 := ⟨fuel - 1, by omega⟩
  rw [processManifest_succ fs f (q 0) [la, link 0] hroot]
  obtain ⟨h0a, h0b, h0c⟩ := hlink 0 (by omega)
  simp only [List.foldr_cons, List.foldr_nil]
  rw [entryStep_lst (fun p => processManifest fs f p) (dirOf (q 0)) (link 0)
    (Except.ok []) h0a (by rw [h0b]; exact h0c)]
  rw [h0b, hjoin 0 (by omega)]
  rw [chain_resolve fs lb hlb n (fun k => q (k + 1)) (fun k => link (k + 1)) f
    (fun k hk => hmid k hk) (fun k hk => hlink (k + 1) (by omega))
    (fun k hk => hjoin (k + 1) (by omega)) hterm (by omega)]
  rw [entryStep_sql _ _ _ _ hla.1
    (by rw [hla.2.1]; exact hla.2.2.1) (by rw [hla.2.1]; exact hla.2.2.2)]
  simp [hla.2.1, Except.map, Except.bind]

def c7fs (p : List Char) : Option (List (List Char)) :=
  if p = ("d/index.lst").data then some [("a.sql").data, ("m0.lst").data]
  else if p = ("d/m0.lst").data then some [("m1.lst").data]
  else if p = ("d/m1.lst").data then some [("b.sql").data]
  else none

def c7q (k : Nat) : List Char :=
  if k = 0 then ("d/index.lst").data
  else if k = 1 then ("d/m0.lst").data
  else ("d/m1.lst").data

def c7link (k : Nat) : List Char :=
  if k = 0 then ("m0.lst").data else ("m1.lst").data

/-- C7 witness: a two-deep nesting resolves to `[d/a.sql, d/b.sql]`. -/
theorem claim_C7_witness :
    processManifest c7fs 3 (("d/index.lst").data) =
      Except.ok [("d/a.sql").data, ("d/b.sql").data] := by
  have h := (claim_C7).2.2 c7fs 1 c7q c7link (("a.sql").data) (("b.sql").data) 3
    (by decide)
    (by intro k hk; interval_cases k; decide)
    (by decide) (by decide) (by decide)
    (by intro k hk; interval_cases k <;> decide)
    (by intro k hk; interval_cases k <;> decide)
    (by omega)
  exact h

end DbMigrate
